import Mathlib

/-!
Shallow embedding of `data_conversion/conversion.py`.

The script merges, per instrument, three daily CSV exports (unadjusted,
backward-adjusted `hfq`, forward-adjusted `qfq`) into one normalized table,
derives volume/vwap/factor columns, writes one CSV per instrument and a
manifest file.  We embed the dataframe pipeline over lists of records:
numeric cells are modelled by `PFloat` (a rational value, NaN, or a signed
infinity, matching pandas float semantics for the operations the script
uses), dates are the already-normalized `YYYY-MM-DD` strings (the claims
under study are about the joins and the arithmetic after normalization),
and `merge(..., how='left')` is the standard left join: each left row is
paired with every matching right row, or kept once with NaN-filled right
columns when no right row matches.
-/

namespace Conversion

/-- Model of a pandas float cell: a rational value, NaN (missing/null), or a
signed infinity. -/
inductive PFloat where
  | val (q : ℚ)
  | nan
  | posInf
  | negInf
deriving DecidableEq, Repr

/-- IEEE-style division on `PFloat` cells, as pandas performs it: a nonzero
value divided by zero gives a signed infinity, `0 / 0` and any operation on
NaN give NaN. -/
def PFloat.div : PFloat → PFloat → PFloat
  | .nan, _ => .nan
  | _, .nan => .nan
  | .val a, .val b =>
      if b = 0 then (if a = 0 then .nan else if 0 < a then .posInf else .negInf)
      else .val (a / b)
  | .val _, .posInf => .val 0
  | .val _, .negInf => .val 0
  | .posInf, .val b => if 0 ≤ b then .posInf else .negInf
  | .negInf, .val b => if 0 ≤ b then .negInf else .posInf
  | .posInf, _ => .nan
  | .negInf, _ => .nan

/-- A NaN-able cell read from an `Option`: `some q` is the value, `none` is a
missing (NaN) cell left by an unmatched left join. -/
def optP : Option ℚ → PFloat
  | some q => .val q
  | none => .nan

/-- One row of the unadjusted (`{code}_daily.csv`) table after date
normalization: 日期, 股票代码, 收盘, 成交量 (lots), 成交额. -/
structure NoAdjRow where
  date : String
  code : String
  closePrice : ℚ
  volumeLots : ℚ
  amountYuan : ℚ
deriving DecidableEq, Repr

/-- One row of an adjusted table (`hfq` or `qfq`) after date normalization:
日期, 开盘, 收盘, 最高, 最低. -/
structure AdjRow where
  date : String
  openPrice : ℚ
  closePrice : ℚ
  highPrice : ℚ
  lowPrice : ℚ
deriving DecidableEq, Repr

/-- The running table after the first merge (`no_adj` left-joined with the
backward-adjusted columns, suffix-free since no names collide yet). -/
structure Merged1 where
  date : String
  code : String
  volumeLots : ℚ
  amountYuan : ℚ
  open_hfq : Option ℚ
  close_hfq : Option ℚ
  high_hfq : Option ℚ
  low_hfq : Option ℚ
deriving DecidableEq, Repr

/-- The running table after the second merge (forward-adjusted columns added;
the rename step then fixes the `_hfq` / `_qfq` suffixes). -/
structure Merged2 where
  date : String
  code : String
  volumeLots : ℚ
  amountYuan : ℚ
  open_hfq : Option ℚ
  close_hfq : Option ℚ
  high_hfq : Option ℚ
  low_hfq : Option ℚ
  open_qfq : Option ℚ
  close_qfq : Option ℚ
  high_qfq : Option ℚ
  low_qfq : Option ℚ
deriving DecidableEq, Repr

/-- Model of `merged_df.merge(hfq_df[['日期','开盘','收盘','最高','最低']],
on='日期', how='left')`: every left row is paired with each matching right
row in order; a left row with no match is kept once with NaN adjusted
columns. -/
def mergeHfq : List NoAdjRow → List AdjRow → List Merged1
  | [], _ => []
  | b :: t, hfq =>
    (match hfq.filter (fun r => r.date = b.date) with
     | [] => [⟨b.date, b.code, b.volumeLots, b.amountYuan, none, none, none, none⟩]
     | ms => ms.map fun r =>
         ⟨b.date, b.code, b.volumeLots, b.amountYuan,
          some r.openPrice, some r.closePrice, some r.highPrice, some r.lowPrice⟩)
    ++ mergeHfq t hfq

/-- The second merge, adding the forward-adjusted columns by date. -/
def mergeQfq : List Merged1 → List AdjRow → List Merged2
  | [], _ => []
  | m :: t, qfq =>
    (match qfq.filter (fun r => r.date = m.date) with
     | [] => [⟨m.date, m.code, m.volumeLots, m.amountYuan,
               m.open_hfq, m.close_hfq, m.high_hfq, m.low_hfq,
               none, none, none, none⟩]
     | ms => ms.map fun r =>
         ⟨m.date, m.code, m.volumeLots, m.amountYuan,
          m.open_hfq, m.close_hfq, m.high_hfq, m.low_hfq,
          some r.openPrice, some r.closePrice, some r.highPrice, some r.lowPrice⟩)
    ++ mergeQfq t qfq

/-- The emitted row: `date, open, high, low, close, volume, amount, vwap,
factor` (the backward-adjusted prices carry the canonical names after the
rename step). -/
structure QlibRow where
  date : String
  openPrice : PFloat
  highPrice : PFloat
  lowPrice : PFloat
  closePrice : PFloat
  volume : PFloat
  amount : PFloat
  vwap : PFloat
  factor : PFloat
deriving DecidableEq, Repr

/-- The derived columns of one merged row, given the positionally assigned
`close_no_adj` cell: `volume = 成交量 * 100`, `amount = 成交额`,
`vwap = amount / volume` then NaN-ed unless `volume > 0`,
`factor = close / close_no_adj`. -/
def computeRow (m : Merged2) (close_no_adj : PFloat) : QlibRow :=
  let volume : ℚ := m.volumeLots * 100
  let amount : ℚ := m.amountYuan
  let vwap0 : PFloat := PFloat.div (.val amount) (.val volume)
  let vwap : PFloat := if 0 < volume then vwap0 else .nan
  let close : PFloat := optP m.close_hfq
  { date := m.date
    openPrice := optP m.open_hfq
    highPrice := optP m.high_hfq
    lowPrice := optP m.low_hfq
    closePrice := close
    volume := .val volume
    amount := .val amount
    vwap := vwap
    factor := PFloat.div close close_no_adj }

/-- The assignment `merged_df['close_no_adj'] = no_adj_df['收盘']` aligns on
the row index: row `i` of the merged frame receives the close of row `i` of
the unadjusted frame, and NaN when the merged frame is longer. -/
def closeNoAdjAt (no_adj : List NoAdjRow) (i : Nat) : PFloat :=
  match no_adj[i]? with
  | some r => .val r.closePrice
  | none => .nan

/-- Row-index-aware pass computing the derived columns: the merged row at
index `i` is combined with the positionally aligned unadjusted close. -/
def attachCloseNoAdj (no_adj : List NoAdjRow) : Nat → List Merged2 → List QlibRow
  | _, [] => []
  | i, m :: t => computeRow m (closeNoAdjAt no_adj i) :: attachCloseNoAdj no_adj (i + 1) t

/-- The whole dataframe pipeline of `process_stock_data` on already-loaded,
date-normalized tables: two left joins, rename, derived columns, projection
to the emitted schema. -/
def process (no_adj : List NoAdjRow) (hfq qfq : List AdjRow) : List QlibRow :=
  attachCloseNoAdj no_adj 0 (mergeQfq (mergeHfq no_adj hfq) qfq)

/-- A CSV cell of the emitted file: the date string or a numeric cell. -/
inductive Cell where
  | str (s : String)
  | num (x : PFloat)
deriving DecidableEq, Repr

/-- The fixed header of the emitted file (`日期` renamed to `date`). -/
def outputHeader : List String :=
  ["date", "open", "high", "low", "close", "volume", "amount", "vwap", "factor"]

/-- One emitted data line, cells in header order; `to_csv(index=False)`
writes no row-index column, so exactly these nine cells appear. -/
def rowCells (r : QlibRow) : List Cell :=
  [.str r.date, .num r.openPrice, .num r.highPrice, .num r.lowPrice,
   .num r.closePrice, .num r.volume, .num r.amount, .num r.vwap, .num r.factor]

/-- The emitted CSV: one header row and one line per data row. -/
def outputTable (no_adj : List NoAdjRow) (hfq qfq : List AdjRow) :
    List String × List (List Cell) :=
  (outputHeader, (process no_adj hfq qfq).map rowCells)

/-- First matching row for a date in an adjusted table; when the table's
dates are pairwise distinct this is the single row a left join pairs up. -/
def dateLookup (adj : List AdjRow) (d : String) : Option AdjRow :=
  adj.find? (fun r => r.date = d)

/-- The one merged row the first left join produces for an unadjusted row
when the backward-adjusted dates are unique. -/
def step1 (hfq : List AdjRow) (b : NoAdjRow) : Merged1 :=
  match dateLookup hfq b.date with
  | none => ⟨b.date, b.code, b.volumeLots, b.amountYuan, none, none, none, none⟩
  | some r => ⟨b.date, b.code, b.volumeLots, b.amountYuan,
      some r.openPrice, some r.closePrice, some r.highPrice, some r.lowPrice⟩

/-- The one merged row the second left join produces when the
forward-adjusted dates are unique. -/
def step2 (qfq : List AdjRow) (m : Merged1) : Merged2 :=
  match dateLookup qfq m.date with
  | none => ⟨m.date, m.code, m.volumeLots, m.amountYuan,
      m.open_hfq, m.close_hfq, m.high_hfq, m.low_hfq, none, none, none, none⟩
  | some r => ⟨m.date, m.code, m.volumeLots, m.amountYuan,
      m.open_hfq, m.close_hfq, m.high_hfq, m.low_hfq,
      some r.openPrice, some r.closePrice, some r.highPrice, some r.lowPrice⟩

lemma length_filter_date_le_one (l : List AdjRow)
    (h : (l.map AdjRow.date).Nodup) (d : String) :
    (l.filter (fun r => r.date = d)).length ≤ 1 := by
  induction l with
  | nil => simp
  | cons a t ih =>
    rw [List.map_cons, List.nodup_cons] at h
    by_cases hd : a.date = d
    · have ht : t.filter (fun r => r.date = d) = [] := by
        rw [List.filter_eq_nil_iff]
        intro x hx hpx
        exact h.1 (by
          have hxd : x.date = a.date := by
            simp only [decide_eq_true_eq] at hpx
            rw [hpx, hd]
          exact hxd ▸ List.mem_map_of_mem AdjRow.date hx)
      rw [List.filter_cons, if_pos (by simpa using hd), ht]
      simp
    · rw [List.filter_cons, if_neg (by simpa using hd)]
      exact ih h.2

lemma mergeHfq_eq_map (base : List NoAdjRow) (hfq : List AdjRow)
    (hle : ∀ d, (hfq.filter (fun r => r.date = d)).length ≤ 1) :
    mergeHfq base hfq = base.map (step1 hfq) := by
  induction base with
  | nil => rfl
  | cons b t ih =>
    rw [List.map_cons, ← ih]
    show (match hfq.filter (fun r => r.date = b.date) with
      | [] => [⟨b.date, b.code, b.volumeLots, b.amountYuan, none, none, none, none⟩]
      | ms => ms.map fun r =>
          ⟨b.date, b.code, b.volumeLots, b.amountYuan,
           some r.openPrice, some r.closePrice, some r.highPrice, some r.lowPrice⟩)
      ++ mergeHfq t hfq = step1 hfq b :: mergeHfq t hfq
    rcases hf : hfq.filter (fun r => r.date = b.date) with _ | ⟨r, rs⟩
    · simp [step1, dateLookup, ← List.filter_head?, hf]
    · have hrs : rs = [] := by
        have hlen := hle b.date
        rw [hf] at hlen
        simpa using hlen
      subst hrs
      simp [step1, dateLookup, ← List.filter_head?, hf]

lemma mergeQfq_eq_map (m1 : List Merged1) (qfq : List AdjRow)
    (hle : ∀ d, (qfq.filter (fun r => r.date = d)).length ≤ 1) :
    mergeQfq m1 qfq = m1.map (step2 qfq) := by
  induction m1 with
  | nil => rfl
  | cons m t ih =>
    rw [List.map_cons, ← ih]
    show (match qfq.filter (fun r => r.date = m.date) with
      | [] => [⟨m.date, m.code, m.volumeLots, m.amountYuan,
                m.open_hfq, m.close_hfq, m.high_hfq, m.low_hfq, none, none, none, none⟩]
      | ms => ms.map fun r =>
          ⟨m.date, m.code, m.volumeLots, m.amountYuan,
           m.open_hfq, m.close_hfq, m.high_hfq, m.low_hfq,
           some r.openPrice, some r.closePrice, some r.highPrice, some r.lowPrice⟩)
      ++ mergeQfq t qfq = step2 qfq m :: mergeQfq t qfq
    rcases hf : qfq.filter (fun r => r.date = m.date) with _ | ⟨r, rs⟩
    · simp [step2, dateLookup, ← List.filter_head?, hf]
    · have hrs : rs = [] := by
        have hlen := hle m.date
        rw [hf] at hlen
        simpa using hlen
      subst hrs
      simp [step2, dateLookup, ← List.filter_head?, hf]

lemma attachCloseNoAdj_length (na : List NoAdjRow) (i : Nat) (l : List Merged2) :
    (attachCloseNoAdj na i l).length = l.length := by
  induction l generalizing i with
  | nil => rfl
  | cons m t ih => simp [attachCloseNoAdj, ih]

lemma attachCloseNoAdj_getElem? (na : List NoAdjRow) (i j : Nat) (l : List Merged2) :
    (attachCloseNoAdj na i l)[j]? =
      l[j]?.map (fun m => computeRow m (closeNoAdjAt na (i + j))) := by
  induction l generalizing i j with
  | nil => simp [attachCloseNoAdj]
  | cons m t ih =>
    cases j with
    | zero => simp [attachCloseNoAdj]
    | succ j =>
      simp only [attachCloseNoAdj, List.getElem?_cons_succ]
      rw [ih (i + 1) j, show i + 1 + j = i + (j + 1) from by omega]

lemma mem_attachCloseNoAdj (na : List NoAdjRow) (i : Nat) (l : List Merged2)
    (row : QlibRow) (h : row ∈ attachCloseNoAdj na i l) :
    ∃ m ∈ l, ∃ j, row = computeRow m (closeNoAdjAt na j) := by
  induction l generalizing i with
  | nil => simp [attachCloseNoAdj] at h
  | cons m t ih =>
    rw [show attachCloseNoAdj na i (m :: t)
        = computeRow m (closeNoAdjAt na i) :: attachCloseNoAdj na (i + 1) t from rfl] at h
    rcases List.mem_cons.mp h with h1 | h2
    · exact ⟨m, List.mem_cons_self m t, i, h1⟩
    · rcases ih (i + 1) h2 with ⟨m', hm', j, hj⟩
      exact ⟨m', List.mem_cons_of_mem m hm', j, hj⟩

lemma mem_mergeHfq (base : List NoAdjRow) (hfq : List AdjRow) (m : Merged1)
    (h : m ∈ mergeHfq base hfq) :
    ∃ b ∈ base, m.date = b.date ∧ m.code = b.code ∧
      m.volumeLots = b.volumeLots ∧ m.amountYuan = b.amountYuan := by
  induction base with
  | nil => simp [mergeHfq] at h
  | cons b t ih =>
    rw [show mergeHfq (b :: t) hfq
        = (match hfq.filter (fun r => r.date = b.date) with
           | [] => [⟨b.date, b.code, b.volumeLots, b.amountYuan, none, none, none, none⟩]
           | ms => ms.map fun r =>
               ⟨b.date, b.code, b.volumeLots, b.amountYuan,
                some r.openPrice, some r.closePrice, some r.highPrice, some r.lowPrice⟩)
          ++ mergeHfq t hfq from by rw [mergeHfq], List.mem_append] at h
    rcases h with h | h
    · refine ⟨b, List.mem_cons_self b t, ?_⟩
      rcases hf : hfq.filter (fun r => r.date = b.date) with _ | ⟨r, rs⟩
      · rw [hf] at h
        simp only [List.mem_singleton] at h
        subst h
        exact ⟨rfl, rfl, rfl, rfl⟩
      · rw [hf] at h
        rcases List.mem_map.mp h with ⟨r', _, hr'⟩
        subst hr'
        exact ⟨rfl, rfl, rfl, rfl⟩
    · rcases ih h with ⟨b', hb', hfields⟩
      exact ⟨b', List.mem_cons_of_mem b hb', hfields⟩

lemma mem_mergeQfq (m1 : List Merged1) (qfq : List AdjRow) (m : Merged2)
    (h : m ∈ mergeQfq m1 qfq) :
    ∃ mm ∈ m1, m.date = mm.date ∧ m.code = mm.code ∧
      m.volumeLots = mm.volumeLots ∧ m.amountYuan = mm.amountYuan := by
  induction m1 with
  | nil => simp [mergeQfq] at h
  | cons mm t ih =>
    rw [show mergeQfq (mm :: t) qfq
        = (match qfq.filter (fun r => r.date = mm.date) with
           | [] => [⟨mm.date, mm.code, mm.volumeLots, mm.amountYuan,
                     mm.open_hfq, mm.close_hfq, mm.high_hfq, mm.low_hfq,
                     none, none, none, none⟩]
           | ms => ms.map fun r =>
               ⟨mm.date, mm.code, mm.volumeLots, mm.amountYuan,
                mm.open_hfq, mm.close_hfq, mm.high_hfq, mm.low_hfq,
                some r.openPrice, some r.closePrice, some r.highPrice, some r.lowPrice⟩)
          ++ mergeQfq t qfq from by rw [mergeQfq], List.mem_append] at h
    rcases h with h | h
    · refine ⟨mm, List.mem_cons_self mm t, ?_⟩
      rcases hf : qfq.filter (fun r => r.date = mm.date) with _ | ⟨r, rs⟩
      · rw [hf] at h
        simp only [List.mem_singleton] at h
        subst h
        exact ⟨rfl, rfl, rfl, rfl⟩
      · rw [hf] at h
        rcases List.mem_map.mp h with ⟨r', _, hr'⟩
        subst hr'
        exact ⟨rfl, rfl, rfl, rfl⟩
    · rcases ih h with ⟨mm', hmm', hfields⟩
      exact ⟨mm', List.mem_cons_of_mem mm hmm', hfields⟩

lemma computeRow_date (m : Merged2) (c : PFloat) : (computeRow m c).date = m.date := rfl

lemma computeRow_closePrice (m : Merged2) (c : PFloat) :
    (computeRow m c).closePrice = optP m.close_hfq := rfl

lemma computeRow_openPrice (m : Merged2) (c : PFloat) :
    (computeRow m c).openPrice = optP m.open_hfq := rfl

lemma computeRow_highPrice (m : Merged2) (c : PFloat) :
    (computeRow m c).highPrice = optP m.high_hfq := rfl

lemma computeRow_lowPrice (m : Merged2) (c : PFloat) :
    (computeRow m c).lowPrice = optP m.low_hfq := rfl

lemma computeRow_volume (m : Merged2) (c : PFloat) :
    (computeRow m c).volume = .val (m.volumeLots * 100) := rfl

lemma computeRow_amount (m : Merged2) (c : PFloat) :
    (computeRow m c).amount = .val m.amountYuan := rfl

lemma computeRow_vwap (m : Merged2) (c : PFloat) :
    (computeRow m c).vwap =
      if 0 < m.volumeLots * 100 then
        PFloat.div (.val m.amountYuan) (.val (m.volumeLots * 100))
      else .nan := rfl

lemma computeRow_factor (m : Merged2) (c : PFloat) :
    (computeRow m c).factor = PFloat.div (optP m.close_hfq) c := rfl

/-- Every emitted row is the derived-columns image of some merged row. -/
lemma mem_process (na : List NoAdjRow) (hfq qfq : List AdjRow) (row : QlibRow)
    (h : row ∈ process na hfq qfq) :
    ∃ m ∈ mergeQfq (mergeHfq na hfq) qfq, ∃ j,
      row = computeRow m (closeNoAdjAt na j) :=
  mem_attachCloseNoAdj na 0 _ row h

lemma merged_eq_map (na : List NoAdjRow) (hfq qfq : List AdjRow)
    (hH : ∀ d, (hfq.filter (fun r => r.date = d)).length ≤ 1)
    (hQ : ∀ d, (qfq.filter (fun r => r.date = d)).length ≤ 1) :
    mergeQfq (mergeHfq na hfq) qfq = na.map (fun b => step2 qfq (step1 hfq b)) := by
  rw [mergeHfq_eq_map na hfq hH, mergeQfq_eq_map _ qfq hQ, List.map_map]
  rfl

lemma process_getElem? (na : List NoAdjRow) (hfq qfq : List AdjRow) (i : Nat) :
    (process na hfq qfq)[i]? =
      (mergeQfq (mergeHfq na hfq) qfq)[i]?.map
        (fun m => computeRow m (closeNoAdjAt na i)) := by
  have h := attachCloseNoAdj_getElem? na 0 i (mergeQfq (mergeHfq na hfq) qfq)
  rw [Nat.zero_add] at h
  exact h

lemma step2_step1_date (hfq qfq : List AdjRow) (b : NoAdjRow) :
    (step2 qfq (step1 hfq b)).date = b.date := by
  rw [step1, step2]
  cases dateLookup hfq b.date <;> cases dateLookup qfq _ <;> rfl

/-- Under unique dates in both adjusted tables, the emitted row at index `i`
is computed from the unadjusted row at index `i`, with the positionally
assigned unadjusted close taken from that same row. -/
lemma process_getElem?_of_unique (na : List NoAdjRow) (hfq qfq : List AdjRow)
    (hH : ∀ d, (hfq.filter (fun r => r.date = d)).length ≤ 1)
    (hQ : ∀ d, (qfq.filter (fun r => r.date = d)).length ≤ 1) (i : Nat) :
    (process na hfq qfq)[i]? =
      na[i]?.map (fun b => computeRow (step2 qfq (step1 hfq b)) (.val b.closePrice)) := by
  rw [process_getElem?, merged_eq_map na hfq qfq hH hQ, List.getElem?_map]
  cases h : na[i]? with
  | none => rfl
  | some b => simp [closeNoAdjAt, h]

lemma step2_step1_proj (hfq qfq : List AdjRow) (b : NoAdjRow) :
    (step2 qfq (step1 hfq b)).date = b.date ∧
    (step2 qfq (step1 hfq b)).volumeLots = b.volumeLots ∧
    (step2 qfq (step1 hfq b)).amountYuan = b.amountYuan ∧
    (step2 qfq (step1 hfq b)).open_hfq = (dateLookup hfq b.date).map AdjRow.openPrice ∧
    (step2 qfq (step1 hfq b)).close_hfq = (dateLookup hfq b.date).map AdjRow.closePrice ∧
    (step2 qfq (step1 hfq b)).high_hfq = (dateLookup hfq b.date).map AdjRow.highPrice ∧
    (step2 qfq (step1 hfq b)).low_hfq = (dateLookup hfq b.date).map AdjRow.lowPrice := by
  cases h1 : dateLookup hfq b.date <;> cases h2 : dateLookup qfq b.date <;>
    simp [step1, step2, h1, h2]

/-- The derived columns never read the forward-adjusted fields, so the
computed row does not depend on the forward-adjusted table joined per
date. -/
lemma computeRow_step2_indep (qfq qfq' : List AdjRow) (m : Merged1) (c : PFloat) :
    computeRow (step2 qfq m) c = computeRow (step2 qfq' m) c := by
  cases h1 : dateLookup qfq m.date <;> cases h2 : dateLookup qfq' m.date <;>
    simp [step2, h1, h2, computeRow]

/-- C1: for every row of the emitted table, the adjustment factor equals the
emitted (backward-adjusted) close divided by the unadjusted close of the row
with the same date in the unadjusted source — that close is taken
positionally (row `i` to row `i`), not via the date join, and positional and
same-date agree because the joins preserve row order and count when the
adjusted tables' dates are unique. -/
theorem factor_eq_close_div_unadjusted_close
    (na : List NoAdjRow) (hfq qfq : List AdjRow)
    (hH : (hfq.map AdjRow.date).Nodup) (hQ : (qfq.map AdjRow.date).Nodup) :
    ∀ (i : Nat) (row : QlibRow), (process na hfq qfq)[i]? = some row →
      ∃ b, na[i]? = some b ∧ b ∈ na ∧ row.date = b.date ∧
        row.factor = PFloat.div row.closePrice (.val b.closePrice) := by
  intro i row hrow
  rw [process_getElem?_of_unique na hfq qfq
    (length_filter_date_le_one hfq hH) (length_filter_date_le_one qfq hQ) i] at hrow
  cases hna : na[i]? with
  | none => rw [hna] at hrow; cases hrow
  | some b =>
    rw [hna] at hrow
    have hrw : row = computeRow (step2 qfq (step1 hfq b)) (.val b.closePrice) :=
      (Option.some.inj hrow).symm
    refine ⟨b, rfl, List.getElem?_mem hna, ?_, ?_⟩
    · rw [hrw, computeRow_date, (step2_step1_proj hfq qfq b).1]
    · rw [hrw, computeRow_factor, computeRow_closePrice]

/-- C2: in every emitted row the amount and volume are plain (non-null)
values; whenever the volume is strictly positive the vwap is exactly
amount / volume, whenever it is zero the vwap is null (NaN), and the vwap
is never an infinite value. -/
theorem vwap_eq_amount_div_volume_or_null
    (na : List NoAdjRow) (hfq qfq : List AdjRow) :
    ∀ row ∈ process na hfq qfq, ∃ a v : ℚ,
      row.amount = .val a ∧ row.volume = .val v ∧
      (0 < v → row.vwap = .val (a / v)) ∧
      (v = 0 → row.vwap = .nan) ∧
      row.vwap ≠ .posInf ∧ row.vwap ≠ .negInf := by
  intro row hrow
  rcases mem_process na hfq qfq row hrow with ⟨m, _, j, rfl⟩
  refine ⟨m.amountYuan, m.volumeLots * 100,
    computeRow_amount m _, computeRow_volume m _, ?_, ?_, ?_, ?_⟩
  · intro hv
    rw [computeRow_vwap, if_pos hv]
    simp [PFloat.div, hv.ne']
  · intro hv
    rw [computeRow_vwap, if_neg (by rw [hv]; exact lt_irrefl 0)]
  · by_cases hv : 0 < m.volumeLots * 100
    · rw [computeRow_vwap, if_pos hv]
      simp [PFloat.div, hv.ne']
    · rw [computeRow_vwap, if_neg hv]
      simp
  · by_cases hv : 0 < m.volumeLots * 100
    · rw [computeRow_vwap, if_pos hv]
      simp [PFloat.div, hv.ne']
    · rw [computeRow_vwap, if_neg hv]
      simp

/-- C3: for well-formed inputs (in particular pairwise-distinct dates in the
two adjusted tables), the two left joins preserve the left-side row count,
so the emitted table has exactly as many data rows as the unadjusted
input. -/
theorem output_rowcount_eq_unadjusted_rowcount
    (na : List NoAdjRow) (hfq qfq : List AdjRow)
    (hH : (hfq.map AdjRow.date).Nodup) (hQ : (qfq.map AdjRow.date).Nodup) :
    (process na hfq qfq).length = na.length := by
  rw [process, attachCloseNoAdj_length,
    merged_eq_map na hfq qfq
      (length_filter_date_le_one hfq hH) (length_filter_date_le_one qfq hQ),
    List.length_map]

/-- C4: the emitted file has the fixed header `date, open, high, low, close,
volume, amount, vwap, factor` with no row-index column; the open/high/low/
close cells of each data row carry the backward-adjusted (hfq) values for
the matching date; and the joined forward-adjusted (qfq) columns never
appear in the output — the emitted table is unchanged when the
forward-adjusted table is replaced by any other one with unique dates. -/
theorem emitted_columns_hfq_fixed_order_no_qfq
    (na : List NoAdjRow) (hfq qfq : List AdjRow)
    (hH : (hfq.map AdjRow.date).Nodup) (hQ : (qfq.map AdjRow.date).Nodup) :
    (outputTable na hfq qfq).1 =
      ["date", "open", "high", "low", "close", "volume", "amount", "vwap", "factor"] ∧
    (∀ (i : Nat) (row : QlibRow), (process na hfq qfq)[i]? = some row →
      ∃ b, na[i]? = some b ∧
        rowCells row =
          [.str b.date,
           .num (optP ((dateLookup hfq b.date).map AdjRow.openPrice)),
           .num (optP ((dateLookup hfq b.date).map AdjRow.highPrice)),
           .num (optP ((dateLookup hfq b.date).map AdjRow.lowPrice)),
           .num (optP ((dateLookup hfq b.date).map AdjRow.closePrice)),
           .num (.val (b.volumeLots * 100)),
           .num (.val b.amountYuan),
           .num (if 0 < b.volumeLots * 100 then
                   PFloat.div (.val b.amountYuan) (.val (b.volumeLots * 100))
                 else .nan),
           .num (PFloat.div (optP ((dateLookup hfq b.date).map AdjRow.closePrice))
                   (.val b.closePrice))]) ∧
    (∀ qfq' : List AdjRow, (qfq'.map AdjRow.date).Nodup →
      process na hfq qfq = process na hfq qfq') := by
  refine ⟨rfl, ?_, ?_⟩
  · intro i row hrow
    rw [process_getElem?_of_unique na hfq qfq
      (length_filter_date_le_one hfq hH) (length_filter_date_le_one qfq hQ) i] at hrow
    cases hna : na[i]? with
    | none => rw [hna] at hrow; cases hrow
    | some b =>
      rw [hna] at hrow
      have hrw : row = computeRow (step2 qfq (step1 hfq b)) (.val b.closePrice) :=
        (Option.some.inj hrow).symm
      obtain ⟨hd, hv, ha, ho, hc, hh, hl⟩ := step2_step1_proj hfq qfq b
      refine ⟨b, rfl, ?_⟩
      rw [hrw]
      simp only [rowCells, computeRow_date, computeRow_openPrice,
        computeRow_highPrice, computeRow_lowPrice, computeRow_closePrice,
        computeRow_volume, computeRow_amount, computeRow_vwap,
        computeRow_factor, hd, hv, ha, ho, hc, hh, hl]
  · intro qfq' hQ'
    apply List.ext_getElem?
    intro n
    rw [process_getElem?_of_unique na hfq qfq
      (length_filter_date_le_one hfq hH) (length_filter_date_le_one qfq hQ) n,
      process_getElem?_of_unique na hfq qfq'
      (length_filter_date_le_one hfq hH) (length_filter_date_le_one qfq' hQ') n]
    cases hna : na[n]? with
    | none => rfl
    | some b =>
      exact congrArg some (computeRow_step2_indep qfq qfq' (step1 hfq b) _)

/-- C9: every emitted row carries volume equal to the raw volume-in-lots of
its unadjusted source row multiplied by the constant 100, and amount equal
to the raw traded amount unchanged. -/
theorem volume_is_lots_times_100_and_amount_unchanged
    (na : List NoAdjRow) (hfq qfq : List AdjRow) :
    ∀ row ∈ process na hfq qfq, ∃ b ∈ na,
      row.volume = .val (b.volumeLots * 100) ∧ row.amount = .val b.amountYuan := by
  intro row hrow
  rcases mem_process na hfq qfq row hrow with ⟨m, hm, j, rfl⟩
  rcases mem_mergeQfq _ qfq m hm with ⟨m1, hm1, _, _, hv2, ha2⟩
  rcases mem_mergeHfq na hfq m1 hm1 with ⟨b, hb, _, _, hv1, ha1⟩
  exact ⟨b, hb,
    by rw [computeRow_volume, hv2, hv1],
    by rw [computeRow_amount, ha2, ha1]⟩

/-- C10: the division-by-zero guard nulls the vwap for every row whose
converted volume is not strictly positive — in particular for strictly
negative volume — not only for volume exactly zero. -/
theorem vwap_null_of_volume_not_positive
    (na : List NoAdjRow) (hfq qfq : List AdjRow) :
    ∀ row ∈ process na hfq qfq, ∀ v : ℚ,
      row.volume = .val v → ¬ (0 < v) → row.vwap = .nan := by
  intro row hrow v hvol hv
  rcases mem_process na hfq qfq row hrow with ⟨m, _, j, rfl⟩
  rw [computeRow_volume] at hvol
  have hev : m.volumeLots * 100 = v := by
    injection hvol
  rw [computeRow_vwap, if_neg (hev ▸ hv)]

/-- A one-row unadjusted fixture: close 10, volume 100 lots, amount 150000. -/
def naW : List NoAdjRow := [⟨"2024-01-02", "000001", 10, 100, 150000⟩]

/-- The matching backward-adjusted fixture row. -/
def hfqW : List AdjRow := [⟨"2024-01-02", 21, 20, 22, 19⟩]

/-- The matching forward-adjusted fixture row. -/
def qfqW : List AdjRow := [⟨"2024-01-02", 11, 10, 12, 9⟩]

/-- A different forward-adjusted fixture with the same (unique) date. -/
def qfqW2 : List AdjRow := [⟨"2024-01-02", 1, 2, 3, 4⟩]

/-- The emitted row the pipeline produces from the fixtures above. -/
def rowW : QlibRow :=
  ⟨"2024-01-02", .val 21, .val 22, .val 19, .val 20, .val 10000, .val 150000,
   .val 15, .val 2⟩

/-- An unadjusted fixture with a negative raw volume. -/
def naNeg : List NoAdjRow := [⟨"2024-01-03", "000001", 10, -5, 1000⟩]

/-- The backward-adjusted row matching the negative-volume fixture. -/
def hfqNeg : List AdjRow := [⟨"2024-01-03", 21, 20, 22, 19⟩]

/-- The forward-adjusted row matching the negative-volume fixture. -/
def qfqNeg : List AdjRow := [⟨"2024-01-03", 11, 10, 12, 9⟩]

/-- The emitted row for the negative-volume fixture: volume -500, vwap NaN. -/
def rowNeg : QlibRow :=
  ⟨"2024-01-03", .val 21, .val 22, .val 19, .val 20, .val (-500), .val 1000,
   .nan, .val 2⟩

theorem factor_eq_close_div_unadjusted_close_witness :
    ∃ b, naW[0]? = some b ∧ b ∈ naW ∧ rowW.date = b.date ∧
      rowW.factor = PFloat.div rowW.closePrice (.val b.closePrice) :=
  factor_eq_close_div_unadjusted_close naW hfqW qfqW (by decide) (by decide) 0 rowW
    (by norm_num [process, mergeHfq, mergeQfq, attachCloseNoAdj, computeRow,
      closeNoAdjAt, optP, PFloat.div, naW, hfqW, qfqW, rowW, List.filter])

theorem vwap_eq_amount_div_volume_or_null_witness :
    ∃ a v : ℚ, rowW.amount = .val a ∧ rowW.volume = .val v ∧
      (0 < v → rowW.vwap = .val (a / v)) ∧ (v = 0 → rowW.vwap = .nan) ∧
      rowW.vwap ≠ .posInf ∧ rowW.vwap ≠ .negInf :=
  vwap_eq_amount_div_volume_or_null naW hfqW qfqW rowW
    (by norm_num [process, mergeHfq, mergeQfq, attachCloseNoAdj, computeRow,
      closeNoAdjAt, optP, PFloat.div, naW, hfqW, qfqW, rowW, List.filter])

theorem output_rowcount_eq_unadjusted_rowcount_witness :
    ((hfqW.map AdjRow.date).Nodup ∧ (qfqW.map AdjRow.date).Nodup) ∧
      (process naW hfqW qfqW).length = naW.length :=
  ⟨⟨by decide, by decide⟩,
   output_rowcount_eq_unadjusted_rowcount naW hfqW qfqW (by decide) (by decide)⟩

theorem emitted_columns_hfq_fixed_order_no_qfq_witness :
    (outputTable naW hfqW qfqW).1 =
      ["date", "open", "high", "low", "close", "volume", "amount", "vwap", "factor"] ∧
    (∃ b, naW[0]? = some b ∧
      rowCells rowW =
        [.str b.date,
         .num (optP ((dateLookup hfqW b.date).map AdjRow.openPrice)),
         .num (optP ((dateLookup hfqW b.date).map AdjRow.highPrice)),
         .num (optP ((dateLookup hfqW b.date).map AdjRow.lowPrice)),
         .num (optP ((dateLookup hfqW b.date).map AdjRow.closePrice)),
         .num (.val (b.volumeLots * 100)),
         .num (.val b.amountYuan),
         .num (if 0 < b.volumeLots * 100 then
                 PFloat.div (.val b.amountYuan) (.val (b.volumeLots * 100))
               else .nan),
         .num (PFloat.div (optP ((dateLookup hfqW b.date).map AdjRow.closePrice))
                 (.val b.closePrice))]) ∧
    process naW hfqW qfqW = process naW hfqW qfqW2 := by
  have big := emitted_columns_hfq_fixed_order_no_qfq naW hfqW qfqW (by decide) (by decide)
  exact ⟨big.1,
    big.2.1 0 rowW
      (by norm_num [process, mergeHfq, mergeQfq, attachCloseNoAdj, computeRow,
        closeNoAdjAt, optP, PFloat.div, naW, hfqW, qfqW, rowW, List.filter]),
    big.2.2 qfqW2 (by decide)⟩

theorem volume_is_lots_times_100_and_amount_unchanged_witness :
    (∃ b ∈ naW, rowW.volume = .val (b.volumeLots * 100) ∧
      rowW.amount = .val b.amountYuan) ∧ rowW.volume = .val 10000 :=
  ⟨volume_is_lots_times_100_and_amount_unchanged naW hfqW qfqW rowW
      (by norm_num [process, mergeHfq, mergeQfq, attachCloseNoAdj, computeRow,
        closeNoAdjAt, optP, PFloat.div, naW, hfqW, qfqW, rowW, List.filter]),
   rfl⟩

theorem vwap_null_of_volume_not_positive_witness : rowNeg.vwap = .nan :=
  vwap_null_of_volume_not_positive naNeg hfqNeg qfqNeg rowNeg
    (by norm_num [process, mergeHfq, mergeQfq, attachCloseNoAdj, computeRow,
      closeNoAdjAt, optP, PFloat.div, naNeg, hfqNeg, qfqNeg, rowNeg, List.filter])
    (-500) rfl (by norm_num)

/-- The exceptions the script's try block can hit: the three reads can fail
with a missing file, missing column, unparseable date or type mismatch, and
the final `to_csv` can fail while writing. -/
inductive Err where
  | fileNotFound (path : String)
  | missingColumn (col : String)
  | malformedDate (s : String)
  | typeMismatch (s : String)
  | writeFailure (msg : String)
deriving DecidableEq, Repr

/-- Model of Python's `str(e)` on the exceptions above. -/
def errMsg : Err → String
  | .fileNotFound p => "[Errno 2] No such file or directory: " ++ p
  | .missingColumn c => "'" ++ c ++ "'"
  | .malformedDate s => s
  | .typeMismatch s => s
  | .writeFailure m => m

/-- The three per-instrument reads: each either yields a parsed and
date-normalized table or raises. -/
structure ReadResults where
  no_adj : Except Err (List NoAdjRow)
  hfq : Except Err (List AdjRow)
  qfq : Except Err (List AdjRow)

/-- The body of the try block of `process_stock_data`: read the three
tables, run the dataframe pipeline and write the output file — the write
(`to_csv`) sits inside the try block as well. -/
def tryBody (t : ReadResults) (write : List QlibRow → Except Err Unit) :
    Except Err Unit := do
  let na ← t.no_adj
  let hf ← t.hfq
  let qf ← t.qfq
  write (process na hf qf)

/-- The diagnostic printed by the except branch:
`f"处理股票 {stock_code} 时出错: {str(e)}"`. -/
def diagnostic (stock_code : String) (e : Err) : String :=
  "处理股票 " ++ stock_code ++ " 时出错: " ++ errMsg e

/-- Model of `process_stock_data` as a whole: the catch-all wraps the entire
body, so the call never raises; the result is the boolean success flag
together with the diagnostics printed. -/
def process_stock_data (stock_code : String) (t : ReadResults)
    (write : List QlibRow → Except Err Unit) : Bool × List String :=
  match tryBody t write with
  | .ok _ => (true, [])
  | .error e => (false, [diagnostic stock_code e])

/-- Model of the batch driver's tally: `success_count` starts at zero and is
incremented exactly when `process_stock_data` returns `True`. -/
def batchSuccessCount (stock_codes : List String)
    (run : String → Bool × List String) : Nat :=
  stock_codes.foldl (fun acc c => if (run c).1 then acc + 1 else acc) 0

/-- C5: whenever anything inside the try block raises, the normalizer does
not raise: it returns false together with a single diagnostic that contains
the instrument identifier and the error message; when nothing raises it
returns true with no diagnostic; and the batch driver counts exactly the
instruments for which the normalizer returned true. -/
theorem normalizer_catches_and_batch_counts :
    (∀ (stock_code : String) (t : ReadResults)
       (write : List QlibRow → Except Err Unit) (e : Err),
       tryBody t write = .error e →
       process_stock_data stock_code t write =
         (false, ["处理股票 " ++ stock_code ++ " 时出错: " ++ errMsg e])) ∧
    (∀ (stock_code : String) (t : ReadResults)
       (write : List QlibRow → Except Err Unit),
       tryBody t write = .ok () →
       process_stock_data stock_code t write = (true, [])) ∧
    (∀ (stock_codes : List String) (run : String → Bool × List String),
       batchSuccessCount stock_codes run =
         (stock_codes.filter (fun c => (run c).1)).length) := by
  refine ⟨?_, ?_, ?_⟩
  · intro c t w e h
    simp [process_stock_data, h, diagnostic]
  · intro c t w h
    simp [process_stock_data, h]
  · intro stock_codes run
    have key : ∀ (l : List String) (n : Nat),
        l.foldl (fun acc c => if (run c).1 then acc + 1 else acc) n =
          n + (l.filter (fun c => (run c).1)).length := by
      intro l
      induction l with
      | nil => intro n; simp
      | cons c t ih =>
        intro n
        rw [List.foldl_cons, List.filter_cons]
        by_cases hc : (run c).1 = true
        · rw [if_pos hc, if_pos hc, ih, List.length_cons]
          omega
        · rw [if_neg hc, if_neg hc, ih]
    rw [batchSuccessCount, key stock_codes 0, Nat.zero_add]

/-- Read results for a three-instrument batch in which only the
backward-adjusted file of instrument 000002 is missing. -/
def readsFor (stock_code : String) : ReadResults :=
  if stock_code = "000002" then
    { no_adj := .ok naW,
      hfq := .error (.fileNotFound "daily_hfq/000002_daily_hfq.csv"),
      qfq := .ok qfqW }
  else { no_adj := .ok naW, hfq := .ok hfqW, qfq := .ok qfqW }

/-- A write that always succeeds. -/
def okWrite : List QlibRow → Except Err Unit := fun _ => .ok ()

/-- The batch run over the reads above. -/
def runBatchW (stock_code : String) : Bool × List String :=
  process_stock_data stock_code (readsFor stock_code) okWrite

theorem normalizer_catches_and_batch_counts_witness :
    (tryBody (readsFor "000002") okWrite =
        .error (.fileNotFound "daily_hfq/000002_daily_hfq.csv") ∧
      process_stock_data "000002" (readsFor "000002") okWrite =
        (false, ["处理股票 " ++ "000002" ++ " 时出错: "
          ++ errMsg (.fileNotFound "daily_hfq/000002_daily_hfq.csv")])) ∧
    batchSuccessCount ["000001", "000002", "000003"] runBatchW =
      (["000001", "000002", "000003"].filter (fun c => (runBatchW c).1)).length ∧
    batchSuccessCount ["000001", "000002", "000003"] runBatchW = 2 := by
  have big := normalizer_catches_and_batch_counts
  have he : tryBody (readsFor "000002") okWrite =
      .error (.fileNotFound "daily_hfq/000002_daily_hfq.csv") := rfl
  exact ⟨⟨he, big.1 "000002" (readsFor "000002") okWrite _ he⟩,
    big.2.2 ["000001", "000002", "000003"] runBatchW, by decide⟩

/-- A write that fails (permission denied, disk full, ...). -/
def failWrite (msg : String) : List QlibRow → Except Err Unit :=
  fun _ => .error (.writeFailure msg)

/-- C6 counterexample: with all three reads succeeding and the output write
failing, the normalizer returns the ordinary per-instrument failure result
(false plus the diagnostic) — the write failure does not escape the
catch-all, contrary to the claim that it propagates. -/
theorem write_failure_not_propagated_counterexample :
    process_stock_data "000001" ⟨.ok naW, .ok hfqW, .ok qfqW⟩
        (failWrite "Permission denied") =
      (false, [diagnostic "000001" (.writeFailure "Permission denied")]) := rfl

/-- C6 (amended): a failure while writing the output file is caught by the
same per-instrument catch-all as every other exception: for any successful
reads the normalizer returns false together with the instrument's
diagnostic, and nothing propagates out of it. -/
theorem write_failure_handled_per_instrument
    (stock_code : String) (na : List NoAdjRow) (hfq qfq : List AdjRow)
    (msg : String) :
    process_stock_data stock_code ⟨.ok na, .ok hfq, .ok qfq⟩ (failWrite msg) =
      (false, [diagnostic stock_code (.writeFailure msg)]) := rfl

/-- Python's `os.path.basename(f).split(".")[0]`: the filename truncated at
its FIRST dot (the whole name when it has no dot). -/
def pySplitFirstDot (s : String) : String :=
  ⟨s.data.takeWhile (fun c => c ≠ '.')⟩

/-- The instrument list derived from the csv files of the output directory,
in directory-listing order. -/
def instrumentsOf (csv_files : List String) : List String :=
  csv_files.map pySplitFirstDot

/-- Model of `generate_instruments_file`: the manifest file is opened with
mode 'w', so whatever content was there before is discarded, and one line
per csv file is written. -/
def generate_instruments_file (_oldContent : String) (csv_files : List String) :
    String :=
  String.join ((instrumentsOf csv_files).map (fun instrument => instrument ++ "\n"))

/-- Modelled from the spec: the claim's "file's name without its extension"
(`os.path.splitext`-style) — the name truncated at its LAST dot, the whole
name when it has no dot.  Used only to compare the code's first-dot split
against the claim's wording. -/
def dropExtension (s : String) : String :=
  if '.' ∈ s.data then
    ⟨((s.data.reverse.dropWhile (fun c => c ≠ '.')).drop 1).reverse⟩
  else s

lemma takeWhile_append_sat (p : Char → Bool) (a : List Char) (c : Char)
    (b : List Char) (ha : ∀ x ∈ a, p x = true) (hc : p c = false) :
    (a ++ c :: b).takeWhile p = a := by
  induction a with
  | nil => simp [List.takeWhile_cons, hc]
  | cons x t ih =>
    have hx : p x = true := ha x (List.mem_cons_self x t)
    simp [List.takeWhile_cons, hx,
      ih (fun y hy => ha y (List.mem_cons_of_mem x hy))]

lemma dropWhile_append_sat (p : Char → Bool) (a : List Char) (c : Char)
    (b : List Char) (ha : ∀ x ∈ a, p x = true) (hc : p c = false) :
    (a ++ c :: b).dropWhile p = c :: b := by
  induction a with
  | nil => simp [List.dropWhile_cons, hc]
  | cons x t ih =>
    have hx : p x = true := ha x (List.mem_cons_self x t)
    simp [List.dropWhile_cons, hx,
      ih (fun y hy => ha y (List.mem_cons_of_mem x hy))]

/-- C7 counterexample: the manifest line for a csv file whose stem itself
contains a dot is the text before the FIRST dot, not the file's name
without its extension: `a.b.csv` yields the line `a`, while its name
without the extension is `a.b`. -/
theorem manifest_line_truncates_at_first_dot_counterexample :
    instrumentsOf ["SH600001.csv", "a.b.csv"] = ["SH600001", "a"] ∧
    dropExtension "a.b.csv" = "a.b" ∧
    ("a" : String) ≠ "a.b" := by
  refine ⟨by decide, by decide, by decide⟩

/-- C7 (amended): the regenerated manifest fully replaces any previous
content and contains exactly one line per csv file in directory-listing
order; each line is the file's name truncated at its first dot — which
coincides with the name without its extension whenever the stem contains no
further dot. -/
theorem manifest_one_line_per_csv_replacing
    (oldContent : String) (csv_files : List String) :
    generate_instruments_file oldContent csv_files =
      String.join ((csv_files.map pySplitFirstDot).map (fun i => i ++ "\n")) ∧
    (instrumentsOf csv_files).length = csv_files.length ∧
    (∀ (f : String) (a b : List Char),
      f.data = a ++ '.' :: b → '.' ∉ a → '.' ∉ b →
      pySplitFirstDot f = dropExtension f) := by
  refine ⟨rfl, by simp [instrumentsOf], ?_⟩
  intro f a b hf ha hb
  have hpa : ∀ x ∈ a, (decide (x ≠ '.')) = true := fun x hx => by
    simp only [decide_eq_true_eq]
    exact fun hxeq => ha (hxeq ▸ hx)
  have hpb : ∀ x ∈ b.reverse, (decide (x ≠ '.')) = true := fun x hx => by
    simp only [decide_eq_true_eq]
    exact fun hxeq => hb (hxeq ▸ List.mem_reverse.mp hx)
  have hpc : (decide (('.' : Char) ≠ '.')) = false := by simp
  rw [pySplitFirstDot, dropExtension,
    if_pos (by rw [hf]; exact List.mem_append_right a (List.mem_cons_self '.' b))]
  congr 1
  rw [hf, takeWhile_append_sat _ a '.' b hpa hpc, List.reverse_append,
    List.reverse_cons, List.append_assoc, List.singleton_append,
    dropWhile_append_sat _ b.reverse '.' a.reverse hpb hpc]
  simp

theorem manifest_one_line_per_csv_replacing_witness :
    (generate_instruments_file "stale" ["SH600001.csv", "SZ000001.csv"] =
      String.join (((["SH600001.csv", "SZ000001.csv"].map pySplitFirstDot)).map
        (fun i => i ++ "\n"))) ∧
    pySplitFirstDot "SH600001.csv" = dropExtension "SH600001.csv" ∧
    instrumentsOf ["SH600001.csv", "SZ000001.csv"] = ["SH600001", "SZ000001"] ∧
    generate_instruments_file "stale" ["SH600001.csv", "SZ000001.csv"] =
      "SH600001\nSZ000001\n" := by
  have big := manifest_one_line_per_csv_replacing "stale" ["SH600001.csv", "SZ000001.csv"]
  exact ⟨big.1,
    big.2.2 "SH600001.csv" "SH600001".data "csv".data (by decide) (by decide)
      (by decide),
    by decide, by decide⟩

/-- Python's `stock_code.startswith('6')`. -/
def startsWithSix (stock_code : String) : Bool :=
  stock_code.data.take 1 = ['6']

/-- The exchange code chosen at the top of `process_stock_data`. -/
def exchangeOf (stock_code : String) : String :=
  if startsWithSix stock_code then "SH" else "SZ"

/-- The output filename `f"{exchange}{stock_code}.csv"`. -/
def outputFileName (stock_code : String) : String :=
  exchangeOf stock_code ++ stock_code ++ ".csv"

/-- C8: the exchange code in the output filename is decided solely by the
identifier's first character — a leading digit 6 yields SH, anything else
(including the empty identifier) yields SZ — and the output file is named
by concatenating that code, the identifier and the `.csv` extension. -/
theorem exchange_code_by_first_char (stock_code : String) :
    (stock_code.data.head? = some '6' → exchangeOf stock_code = "SH") ∧
    (stock_code.data.head? ≠ some '6' → exchangeOf stock_code = "SZ") ∧
    outputFileName stock_code = exchangeOf stock_code ++ stock_code ++ ".csv" ∧
    (∀ other : String, stock_code.data.head? = other.data.head? →
      exchangeOf stock_code = exchangeOf other) := by
  have hchar : ∀ s : String, startsWithSix s = true ↔ s.data.head? = some '6' := by
    intro s
    rw [startsWithSix]
    rcases hd : s.data with _ | ⟨c, t⟩
    · simp
    · simp [List.take]
  refine ⟨?_, ?_, rfl, ?_⟩
  · intro h
    rw [exchangeOf, if_pos ((hchar stock_code).mpr h)]
  · intro h
    rw [exchangeOf, if_neg (fun hc => h ((hchar stock_code).mp hc))]
  · intro other hother
    rw [exchangeOf, exchangeOf]
    by_cases h6 : stock_code.data.head? = some '6'
    · rw [if_pos ((hchar stock_code).mpr h6),
        if_pos ((hchar other).mpr (hother ▸ h6))]
    · rw [if_neg (fun hc => h6 ((hchar stock_code).mp hc)),
        if_neg (fun hc => h6 (hother ▸ (hchar other).mp hc))]

theorem exchange_code_by_first_char_witness :
    exchangeOf "600001" = "SH" ∧ exchangeOf "000001" = "SZ" ∧
    outputFileName "600001" = "SH600001.csv" ∧
    outputFileName "000001" = "SZ000001.csv" :=
  ⟨(exchange_code_by_first_char "600001").1 (by decide),
   (exchange_code_by_first_char "000001").2.1 (by decide),
   by decide, by decide⟩

end Conversion
